import Mathlib

/-!
Verification of the animation-js frame-scheduling engine.

Shallow embedding of `src/index.js` (the compiled CommonJS dialect; the ES-module
dialect in the same file is line-for-line identical logic).

Modelling conventions:
* JS numbers are modelled as `ℚ` (all arithmetic in the source is exact rational
  arithmetic on small values; `Number.prototype.toFixed 10` is modelled as decimal
  rounding to 10 places, see `fix10`).
* The external `amfe-cubicbezier` library is a parameter (`BezierLib`): a named-curve
  lookup table and a 4-point bezier constructor.  `Option BezierLib` distinguishes the
  `Bezier` binding being truthy (`some`) or `undefined` (`none`).
* Fallible JS code returns `Except JsError`.  `JsError.typeError` stands for a runtime
  `TypeError` (property access / call on `undefined`), `JsError.invalidTimingFunction`
  for `throw new Error('unexcept timing function')`.
* Promises/`requestAnimationFrame` are modelled operationally: a `Frame`'s mutable
  closure state is a record, the platform's pending tick queue is explicit, and user /
  platform actions are steps of a transition system emitting an event trace.
-/

/-- Source constants: `var FPS = 60; var INTERVAL = 1000 / FPS;` -/
def INTERVAL : ℚ := 1000 / 60

/-- Model of JS `x.toFixed(10)` (with the resulting decimal string read back as a
number, which is how the source consumes it): round to 10 decimal places.  All values
the source applies this to are nonnegative, where `toFixed` is round-half-up on the
decimal expansion. -/
def fix10 (q : ℚ) : ℚ := (⌊q * 10 ^ 10 + 1 / 2⌋ : ℤ) / 10 ^ 10

/-- The number of iterations of a JS loop `for (var i = 0; i < bound; i++)` when
`bound` may be fractional: the number of naturals strictly below `bound`. -/
def jsLoopCount (bound : ℚ) : ℕ := (⌈bound⌉).toNat

/-- Errors a run of the embedded code can raise. -/
inductive JsError where
  | typeError
  | invalidTimingFunction
  deriving DecidableEq, Repr

/-- A frame work function `fun(percentLinear, percentEased)`.  JS functions take an
arbitrary argument list; both arguments here are (decimal-string renderings of)
numbers, so the argument list is `List ℚ`. -/
abbrev FrameFn (α : Type) := List ℚ → α

/-- The `frames` constructor argument: a single callback or a mapping from integer
percent keys to callbacks.  `Object.keys` enumerates integer-like keys in ascending
numeric order, so the mapping is carried as the (ascending) association list the
source's `frameKeys` is built from. -/
inductive FramesArg (α : Type) where
  | single (f : FrameFn α)
  | mapping (entries : List (ℕ × FrameFn α))

/-- Source normalisation `if (typeof frames === 'function') frames = { '0': frames };`,
followed by
`Object.keys(frames).map(parseInt)` pairing keys with their callbacks. -/
def framesEntries {α : Type} : FramesArg α → List (ℕ × FrameFn α)
  | .single f => [(0, f)]
  | .mapping m => m

/-- Gap filling, `frameQueue.push(frameQueue[frameQueue.length - 1].clone())`:
append a clone of the last queued frame (a clone wraps the same callback with fresh
state), guarded by `else if (frameQueue.length)`.  On an empty queue nothing is
appended. -/
def gapFill {α : Type} (queue : List (FrameFn α)) : List (FrameFn α) :=
  match queue.getLast? with
  | none => queue
  | some f => queue ++ [f]

/-- One iteration of the builder loop in `getFrameQueue`.  State: the not-yet-consumed
key list and the queue built so far.  `var key = frameKeys[0]` is `undefined` when the
list is exhausted; `undefined !== null` holds but `undefined <= percent * 100` is
false, so the exhausted case always takes the gap-fill branch, exactly like a
non-matching key. -/
def queueStep {α : Type} (framePercent : ℚ) (st : List (ℕ × FrameFn α) × List (FrameFn α))
    (i : ℕ) : List (ℕ × FrameFn α) × List (FrameFn α) :=
  let percent := framePercent * i
  match st.1 with
  | [] => (st.1, gapFill st.2)
  | (k, f) :: rest =>
    if (k : ℚ) ≤ percent * 100 then (rest, st.2 ++ [f]) else (st.1, gapFill st.2)

/-- Embedding of `getFrameQueue(duration, frames)` from the source.  The loop
`for (var i = 0; i < frameCount; i++)` runs over the naturals below the (possibly
fractional) `frameCount = duration / INTERVAL` (see `jsLoopCount_spec`).  Queue
entries are represented by the callback each `Frame` wraps: the source pushes either a
freshly wrapped `new Frame(frame)` for a matched key or a `clone()` of the last entry,
and clones carry no state, so the wrapped callback is the whole observable content of
a freshly built queue entry. -/
def getFrameQueue {α : Type} (duration : ℚ) (frames : FramesArg α) : List (FrameFn α) :=
  let frameCount := duration / INTERVAL
  let framePercent := 1 / frameCount
  ((List.range (jsLoopCount frameCount)).foldl (queueStep framePercent)
    (framesEntries frames, [])).2

/-- The external `amfe-cubicbezier` library's `Bezier` export: a named-curve table
(`Bezier[name]`) and a 4-control-point constructor (`Bezier.apply(Bezier, array)`). -/
structure BezierLib where
  lookup : String → Option (ℚ → ℚ)
  construct : List ℚ → (ℚ → ℚ)

/-- The `timingFunction` constructor argument (duck-typed in the source:
string | array | function | anything else). -/
inductive TimingFunction where
  | str (s : String)
  | arr (a : List ℚ)
  | fn (f : ℚ → ℚ)
  | other

/-- Embedding of `getBezier(timingFunction)` from the source, with the library binding `Bezier`
passed explicitly (`some lib` = the import is loaded and truthy, `none` = the binding
is `undefined`).  Faithful to the source's branch structure: when `Bezier` is truthy
the `if (Bezier)` branch is empty (its `console.error` is commented out) and
`bezier` stays `undefined`; only when `Bezier` is falsy does the string/array lookup
run, where property access / `.apply` on `undefined` throws a `TypeError`. -/
def getBezier (lib : Option BezierLib) (timingFunction : TimingFunction) :
    Except JsError (Option (ℚ → ℚ)) :=
  match timingFunction with
  | .str _ =>
    match lib with
    | some _ => .ok none
    | none => .error .typeError
  | .arr _ =>
    match lib with
    | some _ => .ok none
    | none => .error .typeError
  | .fn f => .ok (some f)
  | .other => .ok none

/-- The settled/unsettled state of a `PromiseDefer()` deferred.  Resolutions carry the
callback's return value, rejections the reason (the source only ever rejects with the
string `'CANCEL'`). -/
inductive DeferState (α : Type) where
  | pending
  | resolvedD (v : α)
  | rejectedD (reason : String)
  deriving DecidableEq, Repr

/-- Model of `deferred.resolve(v)`: settles a pending promise, a no-op on a settled one.
Applied through `defer && ...`, so `none` (no deferred yet) stays `none`. -/
def resolveDefer {α : Type} (d : Option (DeferState α)) (v : α) : Option (DeferState α) :=
  match d with
  | some .pending => some (.resolvedD v)
  | other => other

/-- Model of `deferred.reject(r)`: rejects a pending promise, a no-op on a settled one.
Applied through `defer && ...`, so `none` stays `none`. -/
def rejectDefer {α : Type} (d : Option (DeferState α)) (r : String) : Option (DeferState α) :=
  match d with
  | some .pending => some (.rejectedD r)
  | other => other

/-- Observable events at the `Frame`/scheduler boundary. -/
inductive FEvent where
  | schedule (tok : ℕ)
  | cancelTick (tok : ℕ)
  | invoke (args : List ℚ)
  deriving DecidableEq, Repr

/-- The mutable closure state of one `Frame(fun)` instance: `var defer; var tick;
var isCancel = false;` plus the wrapped callback. -/
structure Frame (α : Type) where
  fn : FrameFn α
  defer : Option (DeferState α)
  tick : Option ℕ
  isCancel : Bool

/-- Constructor `new Frame(fun)`. -/
def Frame.make {α : Type} (fn : FrameFn α) : Frame α :=
  { fn := fn, defer := none, tick := none, isCancel := false }

/-- A `Frame` together with the platform scheduler's state as it concerns this frame:
a fresh-token counter and the list of platform-pending ticks `(token, captured args)`.
The tick callback closes over the *variables* `defer`/`isCancel` (read at firing time)
but over its own `args`, so only `args` is stored per pending tick. -/
structure FrameWorld (α : Type) where
  frame : Frame α
  nextToken : ℕ
  scheduled : List (ℕ × List ℚ)

/-- A fresh, unscheduled frame in a fresh scheduler. -/
def FrameWorld.make {α : Type} (fn : FrameFn α) : FrameWorld α :=
  { frame := Frame.make fn, nextToken := 0, scheduled := [] }

/-- Embedding of the frame method `this.request = function () {...}`: resets the
cancellation flag, creates a fresh deferred (replacing any previous one — `then` and
`catch` are re-bound to the new promise by `PromiseMixin`), and registers exactly one
tick with `requestAnimationFrame`, capturing `arguments`. -/
def FrameWorld.request {α : Type} (w : FrameWorld α) (args : List ℚ) :
    FrameWorld α × List FEvent :=
  let t := w.nextToken
  ({ frame := { w.frame with isCancel := false, defer := some .pending, tick := some t },
     nextToken := t + 1,
     scheduled := w.scheduled ++ [(t, args)] },
   [.schedule t])

/-- Embedding of `this.cancel = function () {...}`: if a tick token has ever been stored
(`if (tick)`), set the cancellation flag, call `cancelAnimationFrame(tick)` (which
drops the tick if it is still platform-pending), and reject the deferred with
`'CANCEL'` (a no-op on a settled or absent deferred). -/
def FrameWorld.cancel {α : Type} (w : FrameWorld α) : FrameWorld α × List FEvent :=
  match w.frame.tick with
  | none => (w, [])
  | some t =>
    ({ frame := { w.frame with isCancel := true, defer := rejectDefer w.frame.defer "CANCEL" },
       nextToken := w.nextToken,
       scheduled := w.scheduled.filter (fun p => !(p.1 == t)) },
     [.cancelTick t])

/-- The platform fires tick `t` (if it is still pending): the scheduled callback runs.
`if (isCancel) return;` drops the firing silently; otherwise
`defer && defer.resolve(fun.apply(window, args))` invokes the callback on the captured
arguments and resolves the *current* deferred with its return value (`defer` and
`isCancel` are read at firing time; `args` was captured at request time). -/
def FrameWorld.fire {α : Type} (w : FrameWorld α) (t : ℕ) : FrameWorld α × List FEvent :=
  match w.scheduled.find? (fun p => p.1 == t) with
  | none => (w, [])
  | some (_, args) =>
    let w1 := { w with scheduled := w.scheduled.filter (fun p => !(p.1 == t)) }
    if w.frame.isCancel then (w1, [])
    else
      match w.frame.defer with
      | none => (w1, [])
      | some d =>
        ({ w1 with frame := { w1.frame with defer := some (resolveD d (w.frame.fn args)) } },
         [.invoke args])
where
  /-- resolution of the deferred that is current at firing time -/
  resolveD (d : DeferState α) (v : α) : DeferState α :=
    match d with
    | .pending => .resolvedD v
    | settled => settled

/-- Embedding of `requestFrame(fun)` (a `_createClass` method of `animation`): constructs a fresh
`Frame` and immediately calls `frame.request()` **with no arguments**.  JS silently
accepts extra arguments at a call site; `extraArgs` models arguments passed to
`requestFrame` beyond `fun`, which the source never reads. -/
def requestFrame {α : Type} (fn : FrameFn α) (extraArgs : List ℚ) : FrameWorld α :=
  (FrameWorld.request (FrameWorld.make fn) []).1

/-- Driver-level observable events.
* `requested idx args`: `frameQueue[idx].request(args...)` ran (a tick was scheduled);
* `invoked idx args`: that frame's tick fired and its callback ran on `args`;
* `resolveCycle v`: `defer.resolve(v)` on the play-cycle deferred (always `"FINISH"`);
* `cancelFrame idx`: `stop()` called `frameQueue[idx].cancel()` on the in-flight
  frame, dropping its pending tick and rejecting its promise with `'CANCEL'`. -/
inductive AEvent where
  | requested (idx : ℕ) (args : List ℚ)
  | invoked (idx : ℕ) (args : List ℚ)
  | resolveCycle (v : String)
  | cancelFrame (idx : ℕ)
  deriving DecidableEq, Repr

/-- The mutable closure state of one `animation(duration, timingFunction, frames)`
instance.  `timingFunction` is kept in raw form because `play`'s inner `request`
applies the raw constructor argument (`timingFunction(percent)`), not the resolved
`bezier`; `bezier` records the value `getBezier` resolved at construction.
`defer` is whether the play-cycle deferred currently exists (it is created pending,
and set back to `null` after being resolved).  `inflight` is `some args` while the
current frame (`frameQueue[frameIndex]`) has been requested and its tick has neither
fired nor been cancelled. -/
structure Anim (α : Type) where
  frameQueue : List (FrameFn α)
  framePercent : ℚ
  timingFunction : TimingFunction
  bezier : ℚ → ℚ
  frameIndex : ℕ
  isPlaying : Bool
  defer : Bool
  inflight : Option (List ℚ)

/-- A JS call `timingFunction(percent)`: only an actual function value is callable;
calling a string/array/other value throws a `TypeError`. -/
def applyTF (tf : TimingFunction) (q : ℚ) : Except JsError ℚ :=
  match tf with
  | .fn f => .ok (f q)
  | _ => .error .typeError

/-- User/platform actions driving one `animation` instance. -/
inductive Act where
  | play
  | stop
  | tick
  deriving DecidableEq, Repr

/-- The body of `play`'s inner `function request()`:
`var percent = framePercent * (frameIndex + 1).toFixed(10);` (the `toFixed` on an
integer round-trips exactly), then `currentFrame.request(percent.toFixed(10),
timingFunction(percent).toFixed(10))`.  Property access `currentFrame.request` on an
`undefined` queue slot throws a `TypeError` before the arguments are evaluated;
evaluating `timingFunction(percent)` throws if the stored value is not callable. -/
def doRequest {α : Type} (s : Anim α) : Except JsError (Anim α × List AEvent) :=
  let percent := s.framePercent * ((s.frameIndex : ℚ) + 1)
  match s.frameQueue.get? s.frameIndex with
  | none => .error .typeError
  | some _ =>
    match applyTF s.timingFunction percent with
    | .error e => .error e
    | .ok eased =>
      let args := [fix10 percent, fix10 eased]
      .ok ({ s with inflight := some args }, [.requested s.frameIndex args])

/-- Embedding of `this.play = function () {...}`: no-op while already playing; otherwise sets
`isPlaying`, creates the cycle deferred if absent, and runs `request()` once. -/
def playStep {α : Type} (s : Anim α) : Except JsError (Anim α × List AEvent) :=
  if s.isPlaying then .ok (s, [])
  else doRequest { s with isPlaying := true, defer := true }

/-- Embedding of `this.stop = function () {...}`: no-op while not playing; otherwise clears
`isPlaying` and, if `frameQueue[frameIndex]` exists, cancels it — dropping its pending
tick (so the in-flight request never fires) and rejecting its promise with `'CANCEL'`,
which `play`'s rejection handler swallows.  The cycle deferred and `frameIndex` are
untouched. -/
def stopStep {α : Type} (s : Anim α) : Anim α × List AEvent :=
  if !s.isPlaying then (s, [])
  else
    let s1 := { s with isPlaying := false }
    match s.frameQueue.get? s.frameIndex with
    | none => (s1, [])
    | some _ => ({ s1 with inflight := none }, [.cancelFrame s.frameIndex])

/-- The platform fires the in-flight frame's tick (if any): the frame's callback runs
on the captured arguments and its promise resolves, after which the continuation
passed to `.then` runs (same task boundary — promise reactions drain before any other
user action): `if (!isPlaying) return;` then either the last index resolves the cycle
deferred with `'FINISH'` and nulls it, or `frameIndex++` and `request()` recurses. -/
def tickStep {α : Type} (s : Anim α) : Except JsError (Anim α × List AEvent) :=
  match s.inflight with
  | none => .ok (s, [])
  | some args =>
    let ev0 := [AEvent.invoked s.frameIndex args]
    let s0 := { s with inflight := none }
    if !s0.isPlaying then .ok (s0, ev0)
    else if (s0.frameIndex : ℤ) = (s0.frameQueue.length : ℤ) - 1 then
      .ok ({ s0 with isPlaying := false, defer := false },
        ev0 ++ if s0.defer then [AEvent.resolveCycle "FINISH"] else [])
    else
      match doRequest { s0 with frameIndex := s0.frameIndex + 1 } with
      | .error e => .error e
      | .ok (s1, ev1) => .ok (s1, ev0 ++ ev1)

/-- One step of the composed user/platform transition system. -/
def step {α : Type} (s : Anim α) : Act → Except JsError (Anim α × List AEvent)
  | .play => playStep s
  | .stop => .ok (stopStep s)
  | .tick => tickStep s

/-- Run a sequence of actions, accumulating the event trace. -/
def run {α : Type} (s : Anim α) : List Act → Except JsError (Anim α × List AEvent)
  | [] => .ok (s, [])
  | a :: acts =>
    match step s a with
    | .error e => .error e
    | .ok (s1, ev) =>
      match run s1 acts with
      | .error e => .error e
      | .ok (s2, tr) => .ok (s2, ev ++ tr)

/-- The `animation` constructor: builds the frame queue, computes
`framePercent = 1 / (duration / INTERVAL)`, resolves the timing function, and throws
`Error('unexcept timing function')` when resolution yields a falsy value.  The paired
event list is the scheduling activity of construction — always empty: `getFrameQueue`
creates `Frame` objects but never requests one. -/
def animationInit {α : Type} (duration : ℚ) (timingFunction : TimingFunction)
    (frames : FramesArg α) (lib : Option BezierLib) :
    Except JsError (Anim α) × List AEvent :=
  let frameQueue := getFrameQueue duration frames
  let framePercent := 1 / (duration / INTERVAL)
  match getBezier lib timingFunction with
  | .error e => (.error e, [])
  | .ok none => (.error .invalidTimingFunction, [])
  | .ok (some b) =>
    (.ok { frameQueue := frameQueue, framePercent := framePercent,
           timingFunction := timingFunction, bezier := b, frameIndex := 0,
           isPlaying := false, defer := false, inflight := none }, [])

/-- Gap filling as the specification phrases it: "if the queue is non-empty, append a
clone of the last Frame", otherwise append nothing. -/
def specFill {α : Type} (queue : List (FrameFn α)) : List (FrameFn α) :=
  match queue with
  | [] => []
  | q0 :: qs => (q0 :: qs) ++ [(q0 :: qs).getLast (List.cons_ne_nil q0 qs)]

/-- The specification's description of one pass of the queue builder, recursing on the
remaining iteration count with the current iteration index `i` explicit: at iteration
`i`, compute `percent = framePercent * i`; if the next pending key (ascending,
consumed once matched) is `≤ percent * 100`, append that key's callback and advance
the key cursor, otherwise gap-fill. -/
def buildQueueSpecAux {α : Type} (framePercent : ℚ) :
    ℕ → ℕ → List (ℕ × FrameFn α) → List (FrameFn α) → List (FrameFn α)
  | 0, _, _, queue => queue
  | n + 1, i, keys, queue =>
    let percent := framePercent * i
    match keys with
    | (k, f) :: rest =>
      if (k : ℚ) ≤ percent * 100 then
        buildQueueSpecAux framePercent n (i + 1) rest (queue ++ [f])
      else
        buildQueueSpecAux framePercent n (i + 1) keys (specFill queue)
    | [] => buildQueueSpecAux framePercent n (i + 1) [] (specFill queue)

/-- The queue builder as the specification describes it (iteration count as amended:
`⌈frameCount⌉` iterations, the number of loop indices satisfying `i < frameCount`). -/
def buildQueueSpec {α : Type} (duration : ℚ) (frames : FramesArg α) : List (FrameFn α) :=
  let frameCount := duration / INTERVAL
  buildQueueSpecAux (1 / frameCount) (jsLoopCount frameCount) 0 (framesEntries frames) []

/-- The projection of a trace to play-cycle resolution events (`defer.resolve(...)` on
the cycle deferred). -/
def finishEvents (tr : List AEvent) : List AEvent :=
  tr.filter fun e =>
    match e with
    | .resolveCycle _ => true
    | _ => false

/-- The argument pair `play`'s inner `request` passes to the frame at index `idx`:
`(percent.toFixed(10), timingFunction(percent).toFixed(10))` with
`percent = framePercent * (idx + 1)`. -/
def reqArgs (fp : ℚ) (f : ℚ → ℚ) (idx : ℕ) : List ℚ :=
  [fix10 (fp * ((idx : ℚ) + 1)), fix10 (f (fp * ((idx : ℚ) + 1)))]

/-- A cycle-counting callback used in concrete instantiations. -/
def wF : FrameFn ℕ := fun _ => 0

/-- Queue callback used in the concrete C10-style instantiations. -/
def cexF : FrameFn ℚ := fun _ => 0

/-- The callback `fun args => args.length`, whose return value reveals how many
arguments it was invoked with. -/
def lenFn : FrameFn ℕ := fun args => args.length

/-- The animation state produced by
`animationInit (100/3) (.fn id) (.single wF) none`: duration `100/3` ms is two
scheduler intervals, so the queue is `[wF, wF]` (key `0` matched at `i = 0`, gap-fill
clone at `i = 1`) and `framePercent = 1/2`. -/
def s0W : Anim ℕ :=
  { frameQueue := [wF, wF], framePercent := 1 / 2, timingFunction := .fn (fun q => q),
    bezier := fun q => q, frameIndex := 0, isPlaying := false, defer := false,
    inflight := none }

/-- A concrete mid-playback state (frame 0 requested and in flight). -/
def sPlayW : Anim ℕ :=
  { frameQueue := [wF, wF], framePercent := 1 / 2, timingFunction := .fn (fun q => q),
    bezier := fun q => q, frameIndex := 0, isPlaying := true, defer := true,
    inflight := some [1 / 2, 1 / 2] }

/-- A concrete easing-curve library: the name `"ease"` is present (mapped to the
square curve), every other name is absent. -/
def easeLib : BezierLib :=
  { lookup := fun s => if s = "ease" then some (fun q => q * q) else none,
    construct := fun _ => fun q => q }

/-- A concrete frame with a pending request (token `0` scheduled). -/
def wPend : FrameWorld ℕ :=
  { frame := { fn := wF, defer := some .pending, tick := some 0, isCancel := false },
    nextToken := 1, scheduled := [(0, [])] }

/-- A concrete frame that has been cancelled while its (stale) tick is still queued
at the platform. -/
def wCanc : FrameWorld ℕ :=
  { frame := { fn := wF, defer := some (.rejectedD "CANCEL"), tick := some 0,
               isCancel := true },
    nextToken := 1, scheduled := [(0, [])] }

/-- The state `animationInit 1000 (.fn id) {100: cexF} none` produces: key `100` is
never reached (every `percent * 100 < 100`), so the queue is empty. -/
def sCrash : Anim ℚ :=
  { frameQueue := [], framePercent := 1 / ((1000 : ℚ) / INTERVAL),
    timingFunction := .fn (fun q => q), bezier := fun q => q, frameIndex := 0,
    isPlaying := false, defer := false, inflight := none }

/-- A mid-playback driver state: frame `k` requested with `args` and in flight. -/
def midState {α : Type} (Q : List (FrameFn α)) (fp : ℚ) (f b : ℚ → ℚ) (k : ℕ)
    (args : List ℚ) : Anim α :=
  { frameQueue := Q, framePercent := fp, timingFunction := .fn f, bezier := b,
    frameIndex := k, isPlaying := true, defer := true, inflight := some args }

/-- The driver state right after a cycle finished: stopped at the last index with the
cycle deferred consumed. -/
def endState {α : Type} (Q : List (FrameFn α)) (fp : ℚ) (f b : ℚ → ℚ) (k : ℕ) : Anim α :=
  { frameQueue := Q, framePercent := fp, timingFunction := .fn f, bezier := b,
    frameIndex := k, isPlaying := false, defer := false, inflight := none }

/-- The driver state right after `stop()`: idle at the current index, the cycle
deferred still alive. -/
def stopState {α : Type} (Q : List (FrameFn α)) (fp : ℚ) (f b : ℚ → ℚ) (k : ℕ) : Anim α :=
  { frameQueue := Q, framePercent := fp, timingFunction := .fn f, bezier := b,
    frameIndex := k, isPlaying := false, defer := true, inflight := none }

/-- Sanity characterisation: `i` is an iteration index of the JS loop
(`i < bound`) exactly when `i < jsLoopCount bound`. -/
theorem jsLoopCount_spec (bound : ℚ) (i : ℕ) : i < jsLoopCount bound ↔ (i : ℚ) < bound := by
  unfold jsLoopCount
  rcases le_or_lt bound 0 with h | h
  · have hc : ⌈bound⌉ ≤ 0 := Int.ceil_le.mpr (by exact_mod_cast h)
    have : (⌈bound⌉).toNat = 0 := Int.toNat_of_nonpos hc
    rw [this]
    simp only [Nat.not_lt_zero, false_iff, not_lt]
    exact le_trans h (by exact_mod_cast Nat.zero_le i)
  · have hc : 0 ≤ ⌈bound⌉ := le_of_lt (Int.ceil_pos.mpr h)
    rw [← Int.ofNat_lt, Int.toNat_of_nonneg hc, Int.lt_ceil]
    exact Iff.rfl

/-- Evaluation helper: determine `jsLoopCount` from the two ceiling inequalities. -/
theorem jsLoopCount_eq (b : ℚ) (n : ℕ) (h1 : (n : ℚ) - 1 < b) (h2 : b ≤ n) :
    jsLoopCount b = n := by
  unfold jsLoopCount
  have : ⌈b⌉ = (n : ℤ) := Int.ceil_eq_iff.mpr (by constructor <;> push_cast <;> assumption)
  rw [this, Int.toNat_ofNat]

/-- Evaluation helper: `fix10` is the identity on rationals that are exact multiples
of `10 ^ (-10)`. -/
theorem fix10_eq (q : ℚ) (z : ℤ) (h : q * 10 ^ 10 = z) : fix10 q = q := by
  have hhalf : ⌊(1 / 2 : ℚ)⌋ = 0 := by
    rw [Int.floor_eq_iff]
    norm_num
  unfold fix10
  rw [h, Int.floor_int_add, hhalf, add_zero]
  field_simp at h ⊢
  linarith [h]

/-- Inversion for a truthy resolution: `getBezier` only ever produces a usable easing
function from an actual function value, which it returns unchanged. -/
theorem getBezier_ok_some {lib : Option BezierLib} {tf : TimingFunction} {b : ℚ → ℚ}
    (h : getBezier lib tf = .ok (some b)) : tf = .fn b := by
  cases tf <;> cases lib <;> simp_all [getBezier]

/-- Inversion for a successful construction: the fields of the resulting state. -/
theorem animationInit_ok {α : Type} {d : ℚ} {tf : TimingFunction} {fr : FramesArg α}
    {lib : Option BezierLib} {s : Anim α} {ev : List AEvent}
    (h : animationInit d tf fr lib = (.ok s, ev)) :
    ∃ b, getBezier lib tf = .ok (some b) ∧ tf = .fn b
      ∧ s = { frameQueue := getFrameQueue d fr, framePercent := 1 / (d / INTERVAL),
              timingFunction := tf, bezier := b, frameIndex := 0, isPlaying := false,
              defer := false, inflight := none }
      ∧ ev = [] := by
  unfold animationInit at h
  rcases hg : getBezier lib tf with e | ob
  · rw [hg] at h; simp at h
  · rcases ob with _ | b
    · rw [hg] at h; simp at h
    · rw [hg] at h
      simp only [Prod.mk.injEq] at h
      obtain ⟨h1, h2⟩ := h
      cases h1
      exact ⟨b, rfl, getBezier_ok_some hg, rfl, h2.symm⟩

/-- C1.  The easing resolver does **not** do what the claim (and the source's own
constructor documentation, which advertises standard timing-function names and bezier
arrays) says.  With the `amfe-cubicbezier` library loaded and the name `"ease"`
present in it, `getBezier` nevertheless yields no easing function, for the name and
for a well-formed 4-entry control-point array alike: the `if (Bezier)` branch taken
when the library is loaded is empty (its `console.error('require amfe-cubicbezier')`
— the missing-library complaint, revealing the guard is inverted — is commented out),
so a string or array `timingFunction` can never resolve and construction always
throws for them. -/
theorem C1_easing_resolver_code_bug :
    easeLib.lookup "ease" = some (fun q => q * q)
    ∧ getBezier (some easeLib) (.str "ease") = .ok none
    ∧ getBezier (some easeLib) (.arr [0, 0, 1, 1]) = .ok none
    ∧ getBezier none (.str "ease") = .error .typeError := by
  refine ⟨?_, rfl, rfl, rfl⟩
  simp [easeLib]

/-- C2.  Whenever the timing function does not resolve to a usable easing function
(with the library loaded, that is: every non-function `timingFunction`), the
constructor throws `Error('unexcept timing function')` synchronously: no `Anim`
state is produced and no scheduling happened (the construction-time event trace is
empty — `getFrameQueue` builds `Frame` objects but never requests one). -/
theorem C2_unresolvable_timing_function_throws {α : Type} (duration : ℚ)
    (tf : TimingFunction) (frames : FramesArg α) (lib : BezierLib)
    (h : getBezier (some lib) tf = .ok none) :
    animationInit duration tf frames (some lib) = (.error .invalidTimingFunction, []) := by
  unfold animationInit
  rw [h]

/-- Witness for C2 at a concrete input: the string `"linear"` with an (empty-table)
loaded library. -/
theorem C2_unresolvable_timing_function_throws_witness :
    getBezier (some ⟨fun _ => none, fun _ => fun q => q⟩) (.str "linear") = .ok none
    ∧ animationInit (1000 : ℚ) (.str "linear") (.single (fun _ => (0 : ℚ)))
        (some ⟨fun _ => none, fun _ => fun q => q⟩) = (.error .invalidTimingFunction, []) :=
  ⟨rfl, C2_unresolvable_timing_function_throws 1000 (.str "linear") _ _ rfl⟩

/-- Rejecting twice is the same as rejecting once (a settled promise ignores further
settlement attempts). -/
theorem rejectDefer_idem {α : Type} (d : Option (DeferState α)) (r : String) :
    rejectDefer (rejectDefer d r) r = rejectDefer d r := by
  rcases d with _ | d
  · rfl
  · cases d <;> rfl

/-- C7.  `Frame.cancel`: on a frame with a pending request (a stored tick token and a
pending deferred) it sets the cancellation flag, asks the scheduler to drop the token,
and rejects the pending future with `"CANCEL"`; it is an exact no-op on a frame that
was never scheduled; it is idempotent on the frame/scheduler state; and a tick that
fires with the cancellation flag set is dropped silently — the wrapped callback is not
invoked and the future is untouched. -/
theorem C7_frame_cancel {α : Type} (w : FrameWorld α) :
    (∀ t, w.frame.tick = some t → w.frame.defer = some .pending →
      (FrameWorld.cancel w).1.frame.isCancel = true
      ∧ (FrameWorld.cancel w).1.frame.defer = some (.rejectedD "CANCEL")
      ∧ (FrameWorld.cancel w).2 = [.cancelTick t]
      ∧ ∀ a, (t, a) ∉ (FrameWorld.cancel w).1.scheduled)
    ∧ (w.frame.tick = none → FrameWorld.cancel w = (w, []))
    ∧ (FrameWorld.cancel (FrameWorld.cancel w).1).1 = (FrameWorld.cancel w).1
    ∧ (∀ t, w.frame.isCancel = true →
      (FrameWorld.fire w t).1.frame.defer = w.frame.defer
      ∧ ∀ a, FEvent.invoke a ∉ (FrameWorld.fire w t).2) := by
  obtain ⟨⟨fn0, d0, tk0, c0⟩, nt0, sch0⟩ := w
  refine ⟨?_, ?_, ?_, ?_⟩
  · intro t ht hd
    simp only at ht hd
    subst ht hd
    refine ⟨rfl, by simp [FrameWorld.cancel, rejectDefer], rfl, ?_⟩
    intro a hmem
    simp only [FrameWorld.cancel, List.mem_filter] at hmem
    simp at hmem
  · intro ht
    simp only at ht
    subst ht
    rfl
  · cases tk0 <;>
      simp [FrameWorld.cancel, rejectDefer_idem, List.filter_filter, Bool.and_self]
  · intro t hc
    simp only at hc
    subst hc
    simp only [FrameWorld.fire]
    rcases hf : List.find? (fun p => p.1 == t) sch0 with _ | p
    · rw [hf]
      exact ⟨rfl, by simp⟩
    · rcases p with ⟨t2, args⟩
      rw [hf]
      simp

/-- Witness for C7 at concrete inputs: a frame with a pending request (token `0`), a
never-scheduled frame, and a cancelled frame whose stale tick fires. -/
theorem C7_frame_cancel_witness :
    ((FrameWorld.cancel wPend).1.frame.isCancel = true
      ∧ (FrameWorld.cancel wPend).1.frame.defer = some (.rejectedD "CANCEL")
      ∧ (FrameWorld.cancel wPend).2 = [.cancelTick 0]
      ∧ ∀ a, (0, a) ∉ (FrameWorld.cancel wPend).1.scheduled)
    ∧ (FrameWorld.cancel (FrameWorld.make wF) = (FrameWorld.make wF, []))
    ∧ ((FrameWorld.fire wCanc 0).1.frame.defer = wCanc.frame.defer
      ∧ ∀ a, FEvent.invoke a ∉ (FrameWorld.fire wCanc 0).2) :=
  ⟨(C7_frame_cancel wPend).1 0 rfl rfl, (C7_frame_cancel (FrameWorld.make wF)).2.1 rfl,
    (C7_frame_cancel wCanc).2.2.2 0 rfl⟩

/-- C8.  `Frame.request` always starts a fresh cycle: it registers exactly one new
scheduler token (one `requestAnimationFrame` call, one `schedule` event), stores that
single token as the frame's current tick, replaces the completion handle with a fresh
pending deferred (`then`/`catch` are re-bound to it, so a prior handle no longer
governs the frame's observable outcome), and resets the cancellation flag — all of
this whether or not a previous request was still pending. -/
theorem C8_request_fresh_cycle {α : Type} (w : FrameWorld α) (args : List ℚ) :
    (FrameWorld.request w args).2 = [.schedule w.nextToken]
    ∧ (FrameWorld.request w args).1.frame.defer = some .pending
    ∧ (FrameWorld.request w args).1.frame.tick = some w.nextToken
    ∧ (FrameWorld.request w args).1.frame.isCancel = false
    ∧ (FrameWorld.request w args).1.nextToken = w.nextToken + 1
    ∧ (w.nextToken, args) ∈ (FrameWorld.request w args).1.scheduled := by
  refine ⟨rfl, rfl, rfl, rfl, rfl, ?_⟩
  simp [FrameWorld.request]

/-- C9 counterexample.  `requestFrame(fn)` does *not* propagate extra call-site
arguments to `fn`: the source body `var frame = new Frame(fun); return
frame.request();` calls `request` with an empty argument list, so with
`lenFn = fun args => args.length` and the extra argument `5`, the tick invokes `lenFn`
on `[]` and the future resolves with `lenFn [] = 0`, not with `lenFn [5] = 1` as the
claim would require. -/
theorem C9_requestFrame_drops_arguments :
    (FrameWorld.fire (requestFrame lenFn [(5 : ℚ)]) 0).2 = [.invoke []]
    ∧ (FrameWorld.fire (requestFrame lenFn [(5 : ℚ)]) 0).1.frame.defer
        = some (.resolvedD 0)
    ∧ lenFn [(5 : ℚ)] = 1
    ∧ (DeferState.resolvedD 0 : DeferState ℕ) ≠ .resolvedD (lenFn [(5 : ℚ)]) := by
  refine ⟨rfl, rfl, rfl, by simp [lenFn]⟩

/-- C9 as amended.  `requestFrame(fn)` schedules exactly one tick and calls
`request()` with **no** arguments (extra arguments to `requestFrame` are dropped);
when that tick fires, `fn` is invoked exactly once, with the empty argument list, and
the returned future resolves with `fn`'s return value `fn []`; a repeat firing of the
consumed token invokes nothing, and if the frame is cancelled before the tick fires,
`fn` is never invoked and the future is rejected with `"CANCEL"`. -/
theorem C9_requestFrame_one_shot {α : Type} (fn : FrameFn α) (extraArgs : List ℚ) :
    (requestFrame fn extraArgs).scheduled = [(0, [])]
    ∧ (requestFrame fn extraArgs).frame.defer = some .pending
    ∧ (FrameWorld.fire (requestFrame fn extraArgs) 0).2 = [.invoke []]
    ∧ (FrameWorld.fire (requestFrame fn extraArgs) 0).1.frame.defer
        = some (.resolvedD (fn []))
    ∧ (FrameWorld.fire (FrameWorld.fire (requestFrame fn extraArgs) 0).1 0).2 = []
    ∧ (FrameWorld.cancel (requestFrame fn extraArgs)).1.frame.defer
        = some (.rejectedD "CANCEL")
    ∧ (FrameWorld.fire (FrameWorld.cancel (requestFrame fn extraArgs)).1 0).2 = [] :=
  ⟨rfl, rfl, rfl, rfl, rfl, rfl, rfl⟩

/-- C6.  `stop()` is an exact no-op when not playing.  When playing (with the current
index in range, as in every reachable playing state), it clears `isPlaying`, cancels
exactly the currently in-flight frame (`frameQueue[frameIndex].cancel()` — the single
`cancelFrame` event, dropping that frame's pending tick), and leaves `frameIndex`,
the queue and the cycle deferred untouched; a subsequent `play()` therefore requests
the frame at that same unchanged index. -/
theorem C6_stop_no_op_or_cancel_current {α : Type} (s : Anim α) (f : ℚ → ℚ) :
    (s.isPlaying = false → stopStep s = (s, []))
    ∧ (s.isPlaying = true → s.frameIndex < s.frameQueue.length →
      (stopStep s).1.isPlaying = false
      ∧ (stopStep s).1.frameIndex = s.frameIndex
      ∧ (stopStep s).1.frameQueue = s.frameQueue
      ∧ (stopStep s).1.defer = s.defer
      ∧ (stopStep s).1.inflight = none
      ∧ (stopStep s).2 = [.cancelFrame s.frameIndex]
      ∧ (s.timingFunction = .fn f →
        ∃ s2, step (stopStep s).1 .play
          = .ok (s2, [.requested s.frameIndex (reqArgs s.framePercent f s.frameIndex)]))) := by
  constructor
  · intro hp
    unfold stopStep
    rw [hp]
    rfl
  · intro hp hlt
    have hget : s.frameQueue.get? s.frameIndex = some (s.frameQueue.get ⟨s.frameIndex, hlt⟩) :=
      List.get?_eq_get hlt
    have hstop : stopStep s
        = ({ s with isPlaying := false, inflight := none }, [.cancelFrame s.frameIndex]) := by
      unfold stopStep
      rw [hp, hget]
      simp
    rw [hstop]
    refine ⟨rfl, rfl, rfl, rfl, rfl, rfl, ?_⟩
    intro htf
    refine ⟨{ s with
              isPlaying := true,
              defer := true,
              inflight := some (reqArgs s.framePercent f s.frameIndex) }, ?_⟩
    show playStep _ = _
    simp only [playStep, doRequest, Bool.false_eq_true, if_false, hget, htf, applyTF, reqArgs]

/-- Witness for C6 at concrete states: an idle animation (exact no-op) and a playing
one (frame 0 in flight: cancelled, index kept, resume re-requests index 0). -/
theorem C6_stop_no_op_or_cancel_current_witness :
    (stopStep s0W = (s0W, []))
    ∧ (stopStep sPlayW).1.isPlaying = false
    ∧ (stopStep sPlayW).1.frameIndex = sPlayW.frameIndex
    ∧ (stopStep sPlayW).2 = [.cancelFrame sPlayW.frameIndex]
    ∧ ∃ s2, step (stopStep sPlayW).1 .play
        = .ok (s2, [.requested sPlayW.frameIndex
            (reqArgs sPlayW.framePercent (fun q => q) sPlayW.frameIndex)]) := by
  have h2 := (C6_stop_no_op_or_cancel_current sPlayW (fun q => q)).2 rfl (by decide)
  exact ⟨(C6_stop_no_op_or_cancel_current s0W (fun q => q)).1 rfl,
    h2.1, h2.2.1, h2.2.2.2.2.2.1, h2.2.2.2.2.2.2 rfl⟩

/-- The source's gap-filling step and the specification's phrasing of it agree. -/
theorem gapFill_eq_specFill {α : Type} (queue : List (FrameFn α)) :
    gapFill queue = specFill queue := by
  rcases queue with _ | ⟨q0, qs⟩
  · rfl
  · unfold gapFill specFill
    rw [List.getLast?_eq_getLast (q0 :: qs) (List.cons_ne_nil q0 qs)]

/-- The source's builder loop (a fold of `queueStep` over the iteration indices) and
the specification's recursion compute the same queue, from any iteration index, key
cursor and queue prefix. -/
theorem foldl_queueStep_eq_spec {α : Type} (fp : ℚ) (n : ℕ) :
    ∀ (i : ℕ) (keys : List (ℕ × FrameFn α)) (queue : List (FrameFn α)),
    (List.foldl (queueStep fp) (keys, queue) (List.range' i n)).2
      = buildQueueSpecAux fp n i keys queue := by
  induction n with
  | zero => intro i keys queue; rfl
  | succ n ih =>
    intro i keys queue
    rw [List.range'_succ i n 1, List.foldl_cons]
    rcases keys with _ | ⟨⟨k, f⟩, rest⟩
    · show (List.foldl (queueStep fp) ([], gapFill queue) (List.range' (i + 1) n)).2 = _
      rw [ih, buildQueueSpecAux, gapFill_eq_specFill]
    · show (List.foldl (queueStep fp)
          (if (k : ℚ) ≤ fp * (i : ℚ) * 100 then (rest, queue ++ [f])
           else ((k, f) :: rest, gapFill queue)) (List.range' (i + 1) n)).2 = _
      by_cases h : (k : ℚ) ≤ fp * (i : ℚ) * 100
      · rw [if_pos h, ih, buildQueueSpecAux]
        simp only [if_pos h]
      · rw [if_neg h, ih, buildQueueSpecAux, gapFill_eq_specFill]
        simp only [if_neg h]

/-- C3 counterexample.  At `duration = 25` (so `frameCount = 25 / INTERVAL = 3/2`),
the builder loop runs over `List.range (jsLoopCount frameCount)` — 2 iterations — and
`2 ≠ 3/2`: the loop does not iterate "`frameCount = duration / frameInterval` times"
when `frameCount` is fractional; it iterates `⌈frameCount⌉` times. -/
theorem C3_iteration_count_counterexample :
    ((List.range (jsLoopCount ((25 : ℚ) / INTERVAL))).length : ℚ) ≠ (25 : ℚ) / INTERVAL := by
  have h : jsLoopCount ((25 : ℚ) / INTERVAL) = 2 :=
    jsLoopCount_eq _ 2 (by norm_num [INTERVAL]) (by norm_num [INTERVAL])
  rw [h, List.length_range]
  norm_num [INTERVAL]

/-- C3 as amended.  For every positive duration, the built queue is exactly the
specification's construction (`buildQueueSpec`): the loop body matches keys against
`percent * 100` with `percent = framePercent * i`, consumes keys in order, gap-fills a
non-empty queue with a clone of its last frame and appends nothing while the queue is
empty; a bare-function `frames` argument behaves as the mapping `{0: frames}`; and
the iteration count is `⌈frameCount⌉` — equal to `frameCount` itself whenever the
duration is a whole multiple of the frame interval. -/
theorem C3_queue_builder {α : Type} (duration : ℚ) (hd : 0 < duration)
    (frames : FramesArg α) :
    getFrameQueue duration frames = buildQueueSpec duration frames
    ∧ (∀ f : FrameFn α,
        getFrameQueue duration (.single f) = getFrameQueue duration (.mapping [(0, f)]))
    ∧ (∀ n : ℕ, duration = n * INTERVAL → jsLoopCount (duration / INTERVAL) = n) := by
  refine ⟨?_, ?_, ?_⟩
  · simp only [getFrameQueue, buildQueueSpec]
    rw [List.range_eq_range']
    exact foldl_queueStep_eq_spec _ _ 0 _ _
  · intro f
    rfl
  · intro n hn
    subst hn
    have hI : (n : ℚ) * INTERVAL / INTERVAL = n := by
      rw [mul_div_assoc, div_self (by norm_num [INTERVAL]), mul_one]
    rw [hI]
    exact jsLoopCount_eq _ n (by norm_num) le_rfl

/-- Witness for C3 at `duration = 1000`, `frames = {0: wF, 50: wF}`. -/
theorem C3_queue_builder_witness :
    (0 : ℚ) < 1000
    ∧ getFrameQueue (1000 : ℚ) (.mapping [(0, wF), (50, wF)])
        = buildQueueSpec 1000 (.mapping [(0, wF), (50, wF)])
    ∧ (∀ f : FrameFn ℕ,
        getFrameQueue (1000 : ℚ) (.single f) = getFrameQueue 1000 (.mapping [(0, f)]))
    ∧ (∀ n : ℕ, (1000 : ℚ) = n * INTERVAL → jsLoopCount ((1000 : ℚ) / INTERVAL) = n) :=
  ⟨by norm_num, C3_queue_builder 1000 (by norm_num) _⟩

/-- If no iteration's `percent * 100` ever reaches any key, the builder fold leaves
its state untouched: no key is consumed and the queue stays empty. -/
theorem foldl_queueStep_empty {α : Type} (fp : ℚ) (keys : List (ℕ × FrameFn α)) :
    ∀ l : List ℕ, (∀ i ∈ l, ∀ p ∈ keys, ¬((p.1 : ℚ) ≤ fp * (i : ℚ) * 100)) →
    List.foldl (queueStep fp) (keys, []) l = (keys, []) := by
  intro l
  induction l with
  | nil => intro _; rfl
  | cons i l ih =>
    intro h
    rw [List.foldl_cons]
    have hstep : queueStep fp (keys, ([] : List (FrameFn α))) i = (keys, []) := by
      rcases keys with _ | ⟨⟨k, f⟩, rest⟩
      · rfl
      · show (if (k : ℚ) ≤ fp * (i : ℚ) * 100 then (rest, ([] : List (FrameFn α)) ++ [f])
            else ((k, f) :: rest, gapFill [])) = ((k, f) :: rest, [])
        rw [if_neg (h i (by simp) (k, f) (by simp))]
        rfl
    rw [hstep]
    exact ih fun j hj p hp => h j (List.mem_cons_of_mem _ hj) p hp

/-- C10 counterexample.  At `duration = 25` (`frameCount = 3/2`), the smallest key
`50` exceeds `(frameCount - 1)/frameCount * 100 = 100/3`, yet the built queue is
*not* empty: the loop's final iteration `i = 2 - 1` reaches
`percent * 100 = 200/3 ≥ 50`. -/
theorem C10_bound_counterexample :
    ((25 : ℚ) / INTERVAL - 1) / ((25 : ℚ) / INTERVAL) * 100 < 50
    ∧ getFrameQueue 25 (.mapping [(50, cexF)]) ≠ [] := by
  have h : jsLoopCount ((25 : ℚ) / INTERVAL) = 2 :=
    jsLoopCount_eq _ 2 (by norm_num [INTERVAL]) (by norm_num [INTERVAL])
  have hr : List.range 2 = [0, 1] := rfl
  have hq : getFrameQueue 25 (.mapping [(50, cexF)]) = [cexF] := by
    simp only [getFrameQueue, framesEntries, h, hr, List.foldl_cons, List.foldl_nil]
    norm_num [queueStep, gapFill, INTERVAL]
  refine ⟨by norm_num [INTERVAL], ?_⟩
  rw [hq]
  simp

/-- C10 as amended.  If every percent key exceeds `(N - 1)/frameCount * 100`, where
`N = ⌈frameCount⌉` is the number of builder iterations — the largest value
`percent * 100` attains; for durations that are whole multiples of the frame interval
this is the claim's `(frameCount - 1)/frameCount * 100` — then no iteration ever
reaches a key, the built queue is empty, and `play()` on any animation constructed
with those frames reads `frameQueue[0] = undefined` and throws a `TypeError`:
`play()` is only safe on a non-empty queue. -/
theorem C10_unreachable_keys_crash {α : Type} (duration : ℚ) (hd : 0 < duration)
    (entries : List (ℕ × FrameFn α))
    (hk : ∀ p ∈ entries,
      ((jsLoopCount (duration / INTERVAL) - 1 : ℕ) : ℚ) / (duration / INTERVAL) * 100
        < (p.1 : ℚ)) :
    getFrameQueue duration (.mapping entries) = []
    ∧ ∀ (tf : TimingFunction) (lib : Option BezierLib) (s : Anim α) (ev : List AEvent),
        animationInit duration tf (.mapping entries) lib = (.ok s, ev) →
        step s .play = .error .typeError := by
  have hfc : (0 : ℚ) < duration / INTERVAL := div_pos hd (by norm_num [INTERVAL])
  have hempty : getFrameQueue duration (.mapping entries) = [] := by
    simp only [getFrameQueue, framesEntries]
    rw [foldl_queueStep_empty]
    intro i hi p hp hle
    rw [List.mem_range] at hi
    have hi' : (i : ℚ) ≤ ((jsLoopCount (duration / INTERVAL) - 1 : ℕ) : ℚ) := by
      exact_mod_cast Nat.le_sub_one_of_lt hi
    have : (p.1 : ℚ) ≤ ((jsLoopCount (duration / INTERVAL) - 1 : ℕ) : ℚ)
        / (duration / INTERVAL) * 100 := by
      refine le_trans hle ?_
      rw [one_div, inv_mul_eq_div]
      gcongr
    exact absurd (lt_of_le_of_lt this (hk p hp)) (lt_irrefl _)
  refine ⟨hempty, ?_⟩
  intro tf lib s ev hinit
  obtain ⟨b, hb, htf, hs, hev⟩ := animationInit_ok hinit
  subst hs
  show playStep _ = _
  simp only [playStep, Bool.false_eq_true, if_false, doRequest, hempty]
  rfl

/-- Witness for C10 at `duration = 1000`, `frames = {100: cexF}`: the queue is empty
and `play()` on the constructed animation throws a `TypeError`. -/
theorem C10_unreachable_keys_crash_witness :
    (0 : ℚ) < 1000
    ∧ (∀ p ∈ [((100 : ℕ), cexF)],
        ((jsLoopCount ((1000 : ℚ) / INTERVAL) - 1 : ℕ) : ℚ) / ((1000 : ℚ) / INTERVAL) * 100
          < (p.1 : ℚ))
    ∧ getFrameQueue (1000 : ℚ) (.mapping [(100, cexF)]) = []
    ∧ step sCrash .play = .error .typeError := by
  have hc : jsLoopCount ((1000 : ℚ) / INTERVAL) = 60 :=
    jsLoopCount_eq _ 60 (by norm_num [INTERVAL]) (by norm_num [INTERVAL])
  have hk : ∀ p ∈ [((100 : ℕ), cexF)],
      ((jsLoopCount ((1000 : ℚ) / INTERVAL) - 1 : ℕ) : ℚ) / ((1000 : ℚ) / INTERVAL) * 100
        < (p.1 : ℚ) := by
    intro p hp
    rcases List.mem_singleton.mp hp with rfl
    rw [hc]
    norm_num [INTERVAL]
  have hmain := C10_unreachable_keys_crash 1000 (by norm_num) [(100, cexF)] hk
  have hinit : animationInit (1000 : ℚ) (.fn (fun q => q)) (.mapping [(100, cexF)]) none
      = (.ok sCrash, []) := by
    have h0 : animationInit (1000 : ℚ) (.fn (fun q => q)) (.mapping [(100, cexF)]) none
        = (.ok { frameQueue := getFrameQueue (1000 : ℚ) (.mapping [(100, cexF)]),
                 framePercent := 1 / ((1000 : ℚ) / INTERVAL),
                 timingFunction := .fn (fun q => q), bezier := fun q => q, frameIndex := 0,
                 isPlaying := false, defer := false, inflight := none }, []) := rfl
    rw [h0, hmain.1]
    rfl
  exact ⟨by norm_num, hk, hmain.1, hmain.2 _ none sCrash [] hinit⟩

/-- Evaluation of `request()` on a state whose index is in range and whose timing function is
callable: the current frame is requested with the computed argument pair. -/
theorem doRequest_ok {α : Type} (s : Anim α) (f : ℚ → ℚ) (hf : s.timingFunction = .fn f)
    (hlt : s.frameIndex < s.frameQueue.length) :
    doRequest s = .ok ({ s with inflight := some (reqArgs s.framePercent f s.frameIndex) },
      [.requested s.frameIndex (reqArgs s.framePercent f s.frameIndex)]) := by
  unfold doRequest
  rw [List.get?_eq_get hlt, hf]
  rfl

/-- Unfolding one successful step of `run`. -/
theorem run_cons_ok {α : Type} {s s1 s2 : Anim α} {a : Act} {acts : List Act}
    {ev tr : List AEvent} (hstep : step s a = .ok (s1, ev))
    (hrest : run s1 acts = .ok (s2, tr)) :
    run s (a :: acts) = .ok (s2, ev ++ tr) := by
  simp only [run, hstep, hrest]

/-- Inversion of one successful step of `run`. -/
theorem run_cons_inv {α : Type} {s s2 : Anim α} {a : Act} {acts : List Act}
    {tr : List AEvent} (h : run s (a :: acts) = .ok (s2, tr)) :
    ∃ s1 ev tr2, step s a = .ok (s1, ev) ∧ run s1 acts = .ok (s2, tr2) ∧ tr = ev ++ tr2 := by
  rcases hst : step s a with e | ⟨s1, ev⟩
  · have hrr : run s (a :: acts) = .error e := by
      simp only [run, hst]
    rw [hrr] at h
    exact Except.noConfusion h
  · rcases hrl : run s1 acts with e2 | ⟨s2a, tr2⟩
    · have hrr : run s (a :: acts) = .error e2 := by
        simp only [run, hst, hrl]
      rw [hrr] at h
      exact Except.noConfusion h
    · have hrr : run s (a :: acts) = .ok (s2a, ev ++ tr2) := by
        simp only [run, hst, hrl]
      rw [hrr] at h
      simp only [Except.ok.injEq, Prod.mk.injEq] at h
      exact ⟨s1, ev, tr2, rfl, by rw [hrl, h.1], h.2.symm⟩

/-- Composing two successful runs. -/
theorem run_append {α : Type} {s s1 s2 : Anim α} {l1 l2 : List Act} {tr1 tr2 : List AEvent}
    (h1 : run s l1 = .ok (s1, tr1)) (h2 : run s1 l2 = .ok (s2, tr2)) :
    run s (l1 ++ l2) = .ok (s2, tr1 ++ tr2) := by
  induction l1 generalizing s tr1 with
  | nil =>
    have h1a : (Except.ok (s, []) : Except JsError (Anim α × List AEvent))
        = .ok (s1, tr1) := h1
    simp only [Except.ok.injEq, Prod.mk.injEq] at h1a
    rw [List.nil_append, ← h1a.2, List.nil_append, h1a.1]
    exact h2
  | cons a l ih =>
    obtain ⟨s3, ev, tr3, hst, hrl, rfl⟩ := run_cons_inv h1
    rw [List.cons_append, run_cons_ok hst (ih hrl), List.append_assoc]

/-- The projection `finishEvents` distributes over appends. -/
theorem finishEvents_append (l1 l2 : List AEvent) :
    finishEvents (l1 ++ l2) = finishEvents l1 ++ finishEvents l2 := by
  simp [finishEvents]

/-- The platform tick on the *last* in-flight frame: the callback runs, then the
`.then` continuation finds `frameIndex === frameQueue.length - 1`, clears `isPlaying`,
resolves the cycle deferred with `'FINISH'` and nulls it. -/
theorem tickStep_finish {α : Type} (Q : List (FrameFn α)) (fp : ℚ) (f b : ℚ → ℚ) (k : ℕ)
    (args : List ℚ) (hfin : k + 1 = Q.length) :
    tickStep (midState Q fp f b k args)
      = .ok (endState Q fp f b k, [.invoked k args, .resolveCycle "FINISH"]) := by
  have hz : ((k : ℤ) = (Q.length : ℤ) - 1) := by omega
  simp only [tickStep, midState, endState, Bool.not_true, Bool.false_eq_true, if_false,
    if_pos hz, if_true]
  rfl

/-- The platform tick on a non-final in-flight frame: the callback runs, then the
continuation increments `frameIndex` and `request()`s the next frame. -/
theorem tickStep_advance {α : Type} (Q : List (FrameFn α)) (fp : ℚ) (f b : ℚ → ℚ) (k : ℕ)
    (args : List ℚ) (hlt : k + 1 < Q.length) :
    tickStep (midState Q fp f b k args)
      = .ok (midState Q fp f b (k + 1) (reqArgs fp f (k + 1)),
          [.invoked k args, .requested (k + 1) (reqArgs fp f (k + 1))]) := by
  have hz : ¬((k : ℤ) = (Q.length : ℤ) - 1) := by omega
  have hreq := doRequest_ok
    ({ frameQueue := Q, framePercent := fp, timingFunction := .fn f, bezier := b,
       frameIndex := k + 1, isPlaying := true, defer := true, inflight := none } : Anim α)
    f rfl (by simpa using hlt)
  simp only [tickStep, midState, Bool.not_true, Bool.false_eq_true, if_false, if_neg hz]
  rw [hreq]
  rfl

/-- Evaluation of `stop()` on a playing state with the index in range. -/
theorem stopStep_cancels {α : Type} (s : Anim α) (hp : s.isPlaying = true)
    (hlt : s.frameIndex < s.frameQueue.length) :
    stopStep s = ({ s with isPlaying := false, inflight := none },
      [.cancelFrame s.frameIndex]) := by
  unfold stopStep
  rw [hp, List.get?_eq_get hlt]
  simp

/-- Neither `stop()` nor a platform tick does anything on an idle animation with no
in-flight frame. -/
theorem run_idle_noop {α : Type} (s : Anim α) (hp : s.isPlaying = false)
    (hi : s.inflight = none) :
    ∀ acts : List Act, (∀ a ∈ acts, a ≠ Act.play) → run s acts = .ok (s, []) := by
  intro acts h
  induction acts with
  | nil => rfl
  | cons a rest ih =>
    have hstep : step s a = .ok (s, []) := by
      cases a
      · exact absurd rfl (h _ (by simp))
      · show Except.ok (stopStep s) = _
        unfold stopStep
        rw [hp]
        rfl
      · show tickStep s = _
        unfold tickStep
        rw [hi]
    have := run_cons_ok hstep (ih fun a2 ha2 => h a2 (List.mem_cons_of_mem _ ha2))
    simpa using this

/-- Evaluation of `play()` from an idle state with the index in range: marks playing, creates the
cycle deferred, and requests the current frame. -/
theorem playStep_start {α : Type} (Q : List (FrameFn α)) (fp : ℚ) (f b : ℚ → ℚ) (k : ℕ)
    (dfr : Bool) (hlt : k < Q.length) :
    playStep ({ frameQueue := Q, framePercent := fp, timingFunction := .fn f, bezier := b,
                frameIndex := k, isPlaying := false, defer := dfr,
                inflight := none } : Anim α)
      = .ok (midState Q fp f b k (reqArgs fp f k), [.requested k (reqArgs fp f k)]) := by
  have hreq := doRequest_ok
    ({ frameQueue := Q, framePercent := fp, timingFunction := .fn f, bezier := b,
       frameIndex := k, isPlaying := true, defer := true, inflight := none } : Anim α)
    f rfl (by simpa using hlt)
  simp only [playStep, Bool.false_eq_true, if_false]
  rw [hreq]
  rfl

/-- Walking the queue from an in-flight frame `k` through the final frame: each tick
resolves one frame and requests the next; the final tick resolves the cycle deferred
with `'FINISH'` — the single cycle-resolution event of the walk — and stops. -/
theorem walk_to_finish {α : Type} (Q : List (FrameFn α)) (fp : ℚ) (f b : ℚ → ℚ) :
    ∀ (n k : ℕ) (args : List ℚ), k + n + 1 = Q.length →
    ∃ tr, run (midState Q fp f b k args) (List.replicate (n + 1) .tick)
        = .ok (endState Q fp f b (k + n), tr)
      ∧ finishEvents tr = [.resolveCycle "FINISH"] := by
  intro n
  induction n with
  | zero =>
    intro k args hQ
    refine ⟨[.invoked k args, .resolveCycle "FINISH"], ?_, rfl⟩
    have hstep : step (midState Q fp f b k args) .tick = _ :=
      tickStep_finish Q fp f b k args (by omega)
    have := run_cons_ok hstep (rfl : run (endState Q fp f b k) [] = .ok (_, []))
    simpa using this
  | succ n ih =>
    intro k args hQ
    obtain ⟨tr, hrun, hfin⟩ := ih (k + 1) (reqArgs fp f (k + 1)) (by omega)
    have hstep : step (midState Q fp f b k args) .tick = _ :=
      tickStep_advance Q fp f b k args (by omega)
    refine ⟨[.invoked k args, .requested (k + 1) (reqArgs fp f (k + 1))] ++ tr, ?_, ?_⟩
    · rw [List.replicate_succ]
      have hidx : k + 1 + n = k + (n + 1) := by omega
      rw [hidx] at hrun
      exact run_cons_ok hstep hrun
    · rw [finishEvents_append, hfin]
      rfl

/-- Walking the queue part-way: `j` ticks starting from in-flight frame `k`, with
`k + j` still within the queue, advance the cursor to `k + j` with a frame in flight,
and resolve the cycle deferred never. -/
theorem walk_no_finish {α : Type} (Q : List (FrameFn α)) (fp : ℚ) (f b : ℚ → ℚ) :
    ∀ (j k : ℕ) (args : List ℚ), k + j < Q.length →
    ∃ args2 tr, run (midState Q fp f b k args) (List.replicate j .tick)
        = .ok (midState Q fp f b (k + j) args2, tr)
      ∧ finishEvents tr = [] := by
  intro j
  induction j with
  | zero =>
    intro k args _
    exact ⟨args, [], rfl, rfl⟩
  | succ j ih =>
    intro k args hj
    obtain ⟨args2, tr, hrun, hfin⟩ := ih (k + 1) (reqArgs fp f (k + 1)) (by omega)
    have hstep : step (midState Q fp f b k args) .tick = _ :=
      tickStep_advance Q fp f b k args (by omega)
    refine ⟨args2, [.invoked k args, .requested (k + 1) (reqArgs fp f (k + 1))] ++ tr, ?_, ?_⟩
    · rw [List.replicate_succ]
      have hidx : k + 1 + j = k + (j + 1) := by omega
      rw [hidx] at hrun
      exact run_cons_ok hstep hrun
    · rw [finishEvents_append, hfin]
      rfl

/-- A full play cycle from a fresh state: `play()` followed by one platform tick per
queue entry runs to completion, and the trace contains exactly one cycle resolution —
`'FINISH'`. -/
theorem playrun_finish {α : Type} (Q : List (FrameFn α)) (fp : ℚ) (f b : ℚ → ℚ)
    (hlen : 0 < Q.length) :
    ∃ s1 tr, run ({ frameQueue := Q, framePercent := fp, timingFunction := .fn f,
                    bezier := b, frameIndex := 0, isPlaying := false, defer := false,
                    inflight := none } : Anim α) (.play :: List.replicate Q.length .tick)
      = .ok (s1, tr)
      ∧ finishEvents tr = [.resolveCycle "FINISH"] ∧ s1.isPlaying = false := by
  have hplay : step _ .play = _ := playStep_start Q fp f b 0 false hlen
  obtain ⟨tr, hrun, hfin⟩ := walk_to_finish Q fp f b (Q.length - 1) 0 (reqArgs fp f 0)
    (by omega)
  have hrep : (Q.length - 1) + 1 = Q.length := by omega
  rw [hrep] at hrun
  refine ⟨endState Q fp f b (0 + (Q.length - 1)), [.requested 0 (reqArgs fp f 0)] ++ tr,
    run_cons_ok hplay hrun, ?_, rfl⟩
  rw [finishEvents_append, hfin]
  rfl

/-- A play cycle interrupted by `stop()` after `k < Q.length` ticks, followed by any
further non-`play` activity: the run succeeds and its trace contains no cycle
resolution at all — the cycle deferred is never resolved with `'FINISH'`. -/
theorem playrun_stop_no_finish {α : Type} (Q : List (FrameFn α)) (fp : ℚ) (f b : ℚ → ℚ)
    (k : ℕ) (rest : List Act) (hk : k < Q.length) (hrest : ∀ a ∈ rest, a ≠ Act.play) :
    ∃ s1 tr, run ({ frameQueue := Q, framePercent := fp, timingFunction := .fn f,
                    bezier := b, frameIndex := 0, isPlaying := false, defer := false,
                    inflight := none } : Anim α)
        (.play :: (List.replicate k .tick ++ .stop :: rest))
      = .ok (s1, tr)
      ∧ finishEvents tr = [] := by
  have hplay : step _ .play = _ := playStep_start Q fp f b 0 false (by omega)
  obtain ⟨args2, trw, hwalk, hfinw⟩ := walk_no_finish Q fp f b k 0 (reqArgs fp f 0)
    (by omega)
  have hstop0 := stopStep_cancels (midState Q fp f b (0 + k) args2) rfl
    (by simp only [midState]; omega)
  have hstep_stop : step (midState Q fp f b (0 + k) args2) .stop
      = .ok (stopState Q fp f b (0 + k), [.cancelFrame (0 + k)]) := by
    show Except.ok (stopStep _) = _
    rw [hstop0]
    rfl
  have hidle := run_idle_noop (stopState Q fp f b (0 + k)) rfl rfl rest hrest
  have hrun2 := run_append hwalk (run_cons_ok hstep_stop hidle)
  refine ⟨stopState Q fp f b (0 + k),
    [.requested 0 (reqArgs fp f 0)] ++ (trw ++ ([.cancelFrame (0 + k)] ++ [])),
    run_cons_ok hplay hrun2, ?_⟩
  rw [finishEvents_append, finishEvents_append, hfinw]
  rfl

/-- C5.  For every successfully constructed animation: (a) a play cycle that
completes all frames (one `play()`, then one platform tick per queue entry) resolves
the play-cycle deferred exactly once, with the literal `'FINISH'` — the trace's cycle
resolutions are exactly `[resolveCycle "FINISH"]` — and ends not playing; (b) in a
cycle where `stop()` is called before completion (after `k < length` frames have
resolved, the `(k+1)`-st still in flight), followed by anything but a new `play()`,
the cycle deferred is never resolved: the trace contains no cycle resolution. -/
theorem C5_finish_exactly_once {α : Type} (d : ℚ) (tf : TimingFunction)
    (fr : FramesArg α) (lib : Option BezierLib) (s0 : Anim α)
    (hinit : animationInit d tf fr lib = (.ok s0, [])) :
    (0 < s0.frameQueue.length →
      ∃ s1 tr, run s0 (.play :: List.replicate s0.frameQueue.length .tick) = .ok (s1, tr)
        ∧ finishEvents tr = [.resolveCycle "FINISH"] ∧ s1.isPlaying = false)
    ∧ (∀ (k : ℕ) (rest : List Act), k < s0.frameQueue.length →
        (∀ a ∈ rest, a ≠ Act.play) →
        ∃ s1 tr, run s0 (.play :: (List.replicate k .tick ++ .stop :: rest)) = .ok (s1, tr)
          ∧ finishEvents tr = []) := by
  obtain ⟨b, hb, htf, hs, hev⟩ := animationInit_ok hinit
  subst htf
  subst hs
  exact ⟨fun hlen => playrun_finish _ _ b b hlen,
    fun k rest hk hrest => playrun_stop_no_finish _ _ b b k rest hk hrest⟩

/-- Concrete construction used by witnesses: duration `100/3` ms (two ticks), identity
timing function, single callback `wF` — yields exactly the state `s0W`. -/
theorem animationInit_s0W :
    animationInit ((100 : ℚ) / 3) (.fn (fun q => q)) (.single wF) none = (.ok s0W, []) := by
  have hc : jsLoopCount (((100 : ℚ) / 3) / INTERVAL) = 2 :=
    jsLoopCount_eq _ 2 (by norm_num [INTERVAL]) (by norm_num [INTERVAL])
  have hr : List.range 2 = [0, 1] := rfl
  have hq : getFrameQueue ((100 : ℚ) / 3) (.single wF) = [wF, wF] := by
    simp only [getFrameQueue, framesEntries, hc, hr, List.foldl_cons, List.foldl_nil]
    norm_num [queueStep, gapFill]
  have hfp : 1 / (((100 : ℚ) / 3) / INTERVAL) = 1 / 2 := by norm_num [INTERVAL]
  have h0 : animationInit ((100 : ℚ) / 3) (.fn (fun q => q)) (.single wF) none
      = (.ok { frameQueue := getFrameQueue ((100 : ℚ) / 3) (.single wF),
               framePercent := 1 / (((100 : ℚ) / 3) / INTERVAL),
               timingFunction := .fn (fun q => q), bezier := fun q => q, frameIndex := 0,
               isPlaying := false, defer := false, inflight := none }, []) := rfl
  rw [h0, hq, hfp]
  rfl

/-- Witness for C5 at the concrete two-frame animation `s0W`: a completed cycle
(resolves `'FINISH'` exactly once) and a stopped cycle (never resolves). -/
theorem C5_finish_exactly_once_witness :
    animationInit ((100 : ℚ) / 3) (.fn (fun q => q)) (.single wF) none = (.ok s0W, [])
    ∧ 0 < s0W.frameQueue.length
    ∧ (∃ s1 tr, run s0W (.play :: List.replicate s0W.frameQueue.length .tick)
        = .ok (s1, tr) ∧ finishEvents tr = [.resolveCycle "FINISH"] ∧ s1.isPlaying = false)
    ∧ (∃ s1 tr, run s0W (.play :: (List.replicate 1 .tick ++ .stop :: [.tick]))
        = .ok (s1, tr) ∧ finishEvents tr = []) := by
  have h := C5_finish_exactly_once ((100 : ℚ) / 3) (.fn (fun q => q)) (.single wF) none s0W
    animationInit_s0W
  exact ⟨animationInit_s0W, by decide, h.1 (by decide), h.2 1 [.tick] (by decide) (by decide)⟩

/-- Inversion of a successful `request()`: the emitted event and the new state are
determined by the current index, `framePercent` and the (callable) timing function. -/
theorem doRequest_inv2 {α : Type} {s s1 : Anim α} {ev : List AEvent} (f : ℚ → ℚ)
    (hf : s.timingFunction = .fn f) (h : doRequest s = .ok (s1, ev)) :
    ev = [.requested s.frameIndex (reqArgs s.framePercent f s.frameIndex)]
    ∧ s1 = { s with inflight := some (reqArgs s.framePercent f s.frameIndex) } := by
  rcases hg : s.frameQueue.get? s.frameIndex with _ | fn0
  · simp only [doRequest, hg] at h
    exact Except.noConfusion h
  · simp only [doRequest, hg, hf, applyTF] at h
    simp only [Except.ok.injEq, Prod.mk.injEq] at h
    rw [hf]
    exact ⟨h.2.symm, h.1.symm⟩

/-- Case analysis of one successful driver step, for a state with a callable timing
function: the possible event lists, with the requested-arguments formula, and the
frame-index change; `framePercent` and the timing function never change. -/
theorem step_cases {α : Type} {s s1 : Anim α} {a : Act} {ev : List AEvent} (f : ℚ → ℚ)
    (hf : s.timingFunction = .fn f) (h : step s a = .ok (s1, ev)) :
    s1.framePercent = s.framePercent ∧ s1.timingFunction = s.timingFunction
    ∧ ((ev = [] ∧ s1.frameIndex = s.frameIndex)
      ∨ (ev = [.cancelFrame s.frameIndex] ∧ s1.frameIndex = s.frameIndex)
      ∨ (ev = [.requested s.frameIndex (reqArgs s.framePercent f s.frameIndex)]
          ∧ s1.frameIndex = s.frameIndex)
      ∨ (∃ ar, ev = [.invoked s.frameIndex ar] ∧ s1.frameIndex = s.frameIndex)
      ∨ (∃ ar, ev = [.invoked s.frameIndex ar, .resolveCycle "FINISH"]
          ∧ s1.frameIndex = s.frameIndex)
      ∨ (∃ ar, ev = [.invoked s.frameIndex ar,
            .requested (s.frameIndex + 1) (reqArgs s.framePercent f (s.frameIndex + 1))]
          ∧ s1.frameIndex = s.frameIndex + 1)) := by
  cases a
  case play =>
    simp only [step, playStep] at h
    split at h
    · simp only [Except.ok.injEq, Prod.mk.injEq] at h
      obtain ⟨rfl, rfl⟩ := h
      exact ⟨rfl, rfl, Or.inl ⟨rfl, rfl⟩⟩
    · obtain ⟨hev, hs1⟩ := doRequest_inv2 f (by exact hf) h
      subst hev hs1
      exact ⟨rfl, rfl, Or.inr (Or.inr (Or.inl ⟨rfl, rfl⟩))⟩
  case stop =>
    simp only [step] at h
    have h2 : stopStep s = (s1, ev) := by
      injection h
    unfold stopStep at h2
    split at h2
    · simp only [Prod.mk.injEq] at h2
      obtain ⟨rfl, rfl⟩ := h2
      exact ⟨rfl, rfl, Or.inl ⟨rfl, rfl⟩⟩
    · split at h2
      · simp only [Prod.mk.injEq] at h2
        obtain ⟨rfl, rfl⟩ := h2
        exact ⟨rfl, rfl, Or.inl ⟨rfl, rfl⟩⟩
      · simp only [Prod.mk.injEq] at h2
        obtain ⟨rfl, rfl⟩ := h2
        exact ⟨rfl, rfl, Or.inr (Or.inl ⟨rfl, rfl⟩)⟩
  case tick =>
    simp only [step] at h
    rcases hi : s.inflight with _ | args
    · simp only [tickStep, hi] at h
      simp only [Except.ok.injEq, Prod.mk.injEq] at h
      obtain ⟨rfl, rfl⟩ := h
      exact ⟨rfl, rfl, Or.inl ⟨rfl, rfl⟩⟩
    · simp only [tickStep, hi] at h
      split at h
      · simp only [Except.ok.injEq, Prod.mk.injEq] at h
        obtain ⟨rfl, rfl⟩ := h
        exact ⟨rfl, rfl, Or.inr (Or.inr (Or.inr (Or.inl ⟨args, rfl, rfl⟩)))⟩
      · split at h
        · split at h
          · simp only [Except.ok.injEq, Prod.mk.injEq] at h
            obtain ⟨rfl, rfl⟩ := h
            exact ⟨rfl, rfl, Or.inr (Or.inr (Or.inr (Or.inr (Or.inl ⟨args, rfl, rfl⟩))))⟩
          · simp only [Except.ok.injEq, Prod.mk.injEq] at h
            obtain ⟨rfl, rfl⟩ := h
            refine ⟨rfl, rfl, Or.inr (Or.inr (Or.inr (Or.inl ⟨args, ?_, rfl⟩)))⟩
            simp
        · split at h
          · exact Except.noConfusion h
          · rename_i s2 ev2 heq
            obtain ⟨hev2, hs2⟩ := doRequest_inv2 f (by exact hf) heq
            subst hev2 hs2
            simp only [Except.ok.injEq, Prod.mk.injEq] at h
            obtain ⟨rfl, rfl⟩ := h
            exact ⟨rfl, rfl, Or.inr (Or.inr (Or.inr (Or.inr (Or.inr ⟨args, rfl, rfl⟩))))⟩

/-- Main trace induction for the driver: along any successful run from a state with a
callable timing function, (1) every `requested` event carries exactly the argument
pair `reqArgs`, and (2) every request of frame `n + 1` is preceded (within the
accumulated trace `pre ++ ...`) by the invocation of frame `n`. -/
theorem run_trace_good {α : Type} (f : ℚ → ℚ) (fp : ℚ) :
    ∀ (acts : List Act) (s s1 : Anim α) (tr pre : List AEvent),
    run s acts = .ok (s1, tr) →
    s.timingFunction = .fn f → s.framePercent = fp →
    (∀ k, s.frameIndex = k + 1 → ∃ a2, AEvent.invoked k a2 ∈ pre) →
    (∀ idx ar, AEvent.requested idx ar ∈ tr → ar = reqArgs fp f idx)
    ∧ (∀ tr1 n ar tr2, tr = tr1 ++ AEvent.requested (n + 1) ar :: tr2 →
        ∃ a2, AEvent.invoked n a2 ∈ pre ++ tr1) := by
  intro acts
  induction acts with
  | nil =>
    intro s s1 tr pre hrun htf hfp hpre
    have h0 : (Except.ok (s, []) : Except JsError (Anim α × List AEvent)) = .ok (s1, tr) :=
      hrun
    simp only [Except.ok.injEq, Prod.mk.injEq] at h0
    obtain ⟨-, h0b⟩ := h0
    rw [← h0b]
    constructor
    · intro idx ar hmem
      exact absurd hmem (List.not_mem_nil _)
    · intro tr1 n ar tr2 hdec
      exact absurd hdec (by simp)
  | cons a acts ih =>
    intro s s1 tr pre hrun htf hfp hpre
    obtain ⟨sm, ev, tr2, hst, hrest, rfl⟩ := run_cons_inv hrun
    obtain ⟨hfp1, htf1, hshape⟩ := step_cases f htf hst
    have htf2 : sm.timingFunction = .fn f := by rw [htf1, htf]
    have hfp2 : sm.framePercent = fp := by rw [hfp1, hfp]
    have hpre2 : ∀ k, sm.frameIndex = k + 1 → ∃ a2, AEvent.invoked k a2 ∈ pre ++ ev := by
      have hsplit : sm.frameIndex = s.frameIndex
          ∨ (sm.frameIndex = s.frameIndex + 1
            ∧ ∃ ar, AEvent.invoked s.frameIndex ar ∈ ev) := by
        rcases hshape with ⟨-, hidx⟩ | ⟨-, hidx⟩ | ⟨-, hidx⟩ | ⟨ar, -, hidx⟩
          | ⟨ar, -, hidx⟩ | ⟨ar, hev, hidx⟩
        · exact Or.inl hidx
        · exact Or.inl hidx
        · exact Or.inl hidx
        · exact Or.inl hidx
        · exact Or.inl hidx
        · exact Or.inr ⟨hidx, ar, by rw [hev]; simp⟩
      intro k hk
      rcases hsplit with hidx | ⟨hidx, ar, har⟩
      · rw [hidx] at hk
        obtain ⟨a2, ha⟩ := hpre k hk
        exact ⟨a2, List.mem_append_left _ ha⟩
      · rw [hidx] at hk
        have hks : k = s.frameIndex := by omega
        subst hks
        exact ⟨ar, List.mem_append_right _ har⟩
    obtain ⟨ihargs, ihprec⟩ := ih sm s1 tr2 (pre ++ ev) hrest htf2 hfp2 hpre2
    constructor
    · intro idx ar hmem
      rcases List.mem_append.mp hmem with hin | hin
      · rcases hshape with ⟨hev, -⟩ | ⟨hev, -⟩ | ⟨hev, -⟩ | ⟨ar2, hev, -⟩
          | ⟨ar2, hev, -⟩ | ⟨ar2, hev, -⟩ <;> subst hev
        · simp at hin
        · simp at hin
        · simp only [List.mem_singleton] at hin
          injection hin with h1 h2
          subst h1 h2
          rw [hfp]
        · simp at hin
        · simp at hin
        · simp only [List.mem_cons, List.not_mem_nil, or_false] at hin
          rcases hin with h1 | h1
          · simp at h1
          · injection h1 with h2 h3
            subst h2 h3
            rw [hfp]
      · exact ihargs idx ar hin
    · intro tr1 n ar tr2x hdec
      rcases hshape with ⟨hev, -⟩ | ⟨hev, -⟩ | ⟨hev, -⟩ | ⟨ar2, hev, -⟩
        | ⟨ar2, hev, -⟩ | ⟨ar2, hev, -⟩ <;> subst hev
      · rw [List.nil_append] at hdec
        have := ihprec tr1 n ar tr2x hdec
        simpa using this
      · rcases tr1 with _ | ⟨t0, tr1⟩
        · simp at hdec
        · simp only [List.cons_append, List.nil_append, List.cons.injEq] at hdec
          obtain ⟨he, htr⟩ := hdec
          subst he
          have := ihprec tr1 n ar tr2x htr
          simpa [List.append_assoc] using this
      · rcases tr1 with _ | ⟨t0, tr1⟩
        · simp only [List.cons_append, List.nil_append, List.cons.injEq] at hdec
          obtain ⟨he, -⟩ := hdec
          injection he with h1 h2
          obtain ⟨a2, ha⟩ := hpre n h1
          exact ⟨a2, by simpa using ha⟩
        · simp only [List.cons_append, List.nil_append, List.cons.injEq] at hdec
          obtain ⟨he, htr⟩ := hdec
          subst he
          have := ihprec tr1 n ar tr2x htr
          simpa [List.append_assoc] using this
      · rcases tr1 with _ | ⟨t0, tr1⟩
        · simp at hdec
        · simp only [List.cons_append, List.nil_append, List.cons.injEq] at hdec
          obtain ⟨he, htr⟩ := hdec
          subst he
          have := ihprec tr1 n ar tr2x htr
          simpa [List.append_assoc] using this
      · rcases tr1 with _ | ⟨t0, tr1⟩
        · simp at hdec
        · rcases tr1 with _ | ⟨t1, tr1⟩
          · simp only [List.cons_append, List.nil_append, List.cons.injEq] at hdec
            obtain ⟨-, he, -⟩ := hdec
            simp at he
          · simp only [List.cons_append, List.nil_append, List.cons.injEq] at hdec
            obtain ⟨he0, he1, htr⟩ := hdec
            subst he0 he1
            have := ihprec tr1 n ar tr2x htr
            simpa [List.append_assoc] using this
      · rcases tr1 with _ | ⟨t0, tr1⟩
        · simp at hdec
        · rcases tr1 with _ | ⟨t1, tr1⟩
          · simp only [List.cons_append, List.nil_append, List.cons.injEq] at hdec
            obtain ⟨he0, he1, -⟩ := hdec
            injection he1 with h1 h2
            have hn : n = s.frameIndex := by omega
            subst hn he0
            exact ⟨ar2, by simp⟩
          · simp only [List.cons_append, List.nil_append, List.cons.injEq] at hdec
            obtain ⟨he0, he1, htr⟩ := hdec
            subst he0 he1
            have := ihprec tr1 n ar tr2x htr
            simpa [List.append_assoc] using this

/-- C4.  Along every successful action sequence on a successfully constructed
animation: every frame request carries exactly
`(percentLinear.toFixed(10), easing(percentLinear).toFixed(10))` with
`percentLinear = framePercent * (frameIndex + 1)` and `easing` the function resolved
at construction (`bezier`; for a constructible animation the raw `timingFunction` the
code applies *is* that resolved function); and requests are strictly sequential:
frame `n + 1` is requested only after frame `n`'s callback has been invoked (its
future resolved) earlier in the trace. -/
theorem C4_sequential_eased_requests {α : Type} (d : ℚ) (tf : TimingFunction)
    (fr : FramesArg α) (lib : Option BezierLib) (s0 : Anim α)
    (hinit : animationInit d tf fr lib = (.ok s0, []))
    (acts : List Act) (s1 : Anim α) (tr : List AEvent)
    (hrun : run s0 acts = .ok (s1, tr)) :
    (∀ idx ar, AEvent.requested idx ar ∈ tr →
      ar = [fix10 (s0.framePercent * ((idx : ℚ) + 1)),
            fix10 (s0.bezier (s0.framePercent * ((idx : ℚ) + 1)))])
    ∧ (∀ tr1 n ar tr2, tr = tr1 ++ AEvent.requested (n + 1) ar :: tr2 →
        ∃ a2, AEvent.invoked n a2 ∈ tr1) := by
  obtain ⟨b, hb, htf, hs, hev⟩ := animationInit_ok hinit
  have htf0 : s0.timingFunction = .fn b := by
    rw [hs]
    exact htf
  have hbz : s0.bezier = b := by rw [hs]
  have hidx0 : s0.frameIndex = 0 := by rw [hs]
  have hpre : ∀ k, s0.frameIndex = k + 1 → ∃ a2, AEvent.invoked k a2 ∈ ([] : List AEvent) := by
    intro k hk
    rw [hidx0] at hk
    omega
  obtain ⟨hargs, hprec⟩ := run_trace_good b s0.framePercent acts s0 s1 tr [] hrun htf0 rfl hpre
  constructor
  · intro idx ar hm
    have h := hargs idx ar hm
    rw [h, hbz]
    rfl
  · intro tr1 n ar tr2 hdec
    have h := hprec tr1 n ar tr2 hdec
    simpa using h

/-- Witness for C4 at the concrete two-frame animation `s0W`, running a full cycle
`play, tick, tick`. -/
theorem C4_sequential_eased_requests_witness :
    animationInit ((100 : ℚ) / 3) (.fn (fun q => q)) (.single wF) none = (.ok s0W, [])
    ∧ ∃ s1 tr, run s0W [.play, .tick, .tick] = .ok (s1, tr)
      ∧ ((∀ idx ar, AEvent.requested idx ar ∈ tr →
            ar = [fix10 (s0W.framePercent * ((idx : ℚ) + 1)),
                  fix10 (s0W.bezier (s0W.framePercent * ((idx : ℚ) + 1)))])
        ∧ (∀ tr1 n ar tr2, tr = tr1 ++ AEvent.requested (n + 1) ar :: tr2 →
            ∃ a2, AEvent.invoked n a2 ∈ tr1)) :=
  ⟨animationInit_s0W, _, _, rfl,
    C4_sequential_eased_requests ((100 : ℚ) / 3) (.fn (fun q => q)) (.single wF) none s0W
      animationInit_s0W [.play, .tick, .tick] _ _ rfl⟩

